import Mathlib

/-!
Verification of the VoTune-AI services: the playlist search handler
(`src/1.py`, Flask) and the mood analysis handlers
(`src/backend/main.py`, FastAPI), shallowly embedded in Lean.
-/

namespace VoTune

/-! ## Data model for the playlist service (`src/1.py`) -/

/-- The nested artist object of a Deezer candidate; `song.get('artist', {})`
may be absent and its `name` field may itself be absent. -/
structure Artist where
  name : Option String
deriving Repr, DecidableEq

/-- A raw candidate record from the Deezer search response, with every field
optional exactly as `song.get(...)` treats them: `id` (dedup key), `title`,
`artist` (an object with a `name`), `preview` (preview URL). -/
structure Candidate where
  id : Option Int
  title : Option String
  artist : Option Artist
  preview : Option String
deriving Repr, DecidableEq

/-- The normalized output record built by the loop:
`{"title": title, "artist": artist_name, "preview_url": preview_url}`. -/
structure TrackInfo where
  title : Option String
  artist : Option String
  preview_url : Option String
deriving Repr, DecidableEq

/-- `artist_name = song.get('artist', {}).get('name')`. -/
def artistName (song : Candidate) : Option String :=
  match song.artist with
  | none => none
  | some a => a.name

/-- Python truthiness of the extracted `preview` value: `None` and the
empty string are falsy. -/
def truthy : Option String → Bool
  | none => false
  | some s => s ≠ ""

/-- `TARGET_SONGS = 5` from the configuration section. -/
def TARGET_SONGS : Nat := 5

/-- `DEFAULT_QUERY = "lofi"` from the configuration section. -/
def DEFAULT_QUERY : String := "lofi"

/-- The acceptance test of the loop body:
`if preview_url and track_id not in seen_track_ids`. -/
def accepts (song : Candidate) (seen : List (Option Int)) : Bool :=
  truthy song.preview && !(seen.contains song.id)

/-- The `track_info` object appended on acceptance. -/
def mkEntry (song : Candidate) : TrackInfo :=
  { title := song.title, artist := artistName song, preview_url := song.preview }

/-- The `for song in songs` loop of `get_playlist`: `seen` is
`seen_track_ids` (only membership is used, so a list models the set),
`acc` is `filtered_playlist`; on acceptance the entry is appended, the id
recorded, and the loop breaks once `len(filtered_playlist) >= TARGET_SONGS`
(here: `target ≤ acc2.length`). -/
def playlistLoop (target : Nat) : List Candidate → List (Option Int) → List TrackInfo → List TrackInfo
  | [], _, acc => acc
  | song :: rest, seen, acc =>
    if accepts song seen then
      let acc2 := acc ++ [mkEntry song]
      if target ≤ acc2.length then acc2
      else playlistLoop target rest (song.id :: seen) acc2
    else playlistLoop target rest seen acc

/-- `filtered_playlist` as produced from the raw candidate list:
the loop started from the empty playlist and empty seen-set. -/
def filtered_playlist (target : Nat) (songs : List Candidate) : List TrackInfo :=
  playlistLoop target songs [] []

/-- `query = request.args.get('q', DEFAULT_QUERY)`: Flask returns the
default only when the parameter is absent; a present value (even the
empty string) is returned as-is. -/
def requestQuery (qParam : Option String) : String :=
  match qParam with
  | none => DEFAULT_QUERY
  | some s => s

/-- The decoded upstream body: either the `data` field is missing or not a
list (malformed), or it is a list of candidates. -/
inductive DeezerBody where
  | malformed
  | withData (songs : List Candidate)
deriving Repr, DecidableEq

/-- Outcome of the `requests.get` call: a raised
`requests.exceptions.RequestException`, or a decoded JSON body. -/
inductive Upstream where
  | failure
  | success (body : DeezerBody)
deriving Repr, DecidableEq

/-- An HTTP response of the handler: a `{error, message}` JSON body with a
status code, or a JSON playlist with a status code. -/
inductive HandlerResult where
  | errorBody (status : Nat) (error message : String)
  | okBody (status : Nat) (playlist : List TrackInfo)
deriving Repr, DecidableEq

/-- The `get_playlist` handler of `src/1.py`, with the network call
abstracted as the `upstream` argument: 503 on a request exception, 404 on
a malformed body, then the filter loop, then 404 if nothing was accepted,
else 200 with the filtered playlist. -/
def get_playlist (qParam : Option String) (upstream : Upstream) : HandlerResult :=
  let query := requestQuery qParam
  match upstream with
  | .failure =>
      .errorBody 503 "External API Error"
        "Could not connect to or retrieve data from the Deezer API."
  | .success .malformed =>
      .errorBody 404 "No Songs Found"
        ("No results found for query \x27" ++ query ++ "\x27 or API response was unexpected.")
  | .success (.withData songs) =>
      let fp := filtered_playlist TARGET_SONGS songs
      if fp = [] then
        .errorBody 404 "No Songs Found"
          ("Could not find any songs with a preview URL for query \x27" ++ query
            ++ "\x27. Try a different search term.")
      else .okBody 200 fp

/-! ## Instrumented views of the loop, used only in proofs -/

/-- The candidates the loop accepts, starting from seen-set `seen` with the
playlist already holding `k` entries; mirrors `playlistLoop` exactly but
returns the accepted candidates instead of the built entries. -/
def acceptedCands (target : Nat) : List Candidate → List (Option Int) → Nat → List Candidate
  | [], _, _ => []
  | song :: rest, seen, k =>
    if accepts song seen then
      if target ≤ k + 1 then [song]
      else song :: acceptedCands target rest (song.id :: seen) (k + 1)
    else acceptedCands target rest seen k

/-- How many candidates the loop inspects before returning; mirrors
`playlistLoop` exactly. -/
def consumedCount (target : Nat) : List Candidate → List (Option Int) → Nat → Nat
  | [], _, _ => 0
  | song :: rest, seen, k =>
    if accepts song seen then
      if target ≤ k + 1 then 1
      else 1 + consumedCount target rest (song.id :: seen) (k + 1)
    else 1 + consumedCount target rest seen k

/-! ## Data model for the mood service (`src/backend/main.py`) -/

/-- The JSON body returned by `analyze_mood`:
`{"input_text": ..., "mood": ..., "confidence": ...}`.  Scores are modelled
as rationals. -/
structure MoodResponse where
  input_text : String
  mood : String
  confidence : ℚ
deriving Repr, DecidableEq

/-- Python `round(x, 3)`: round to 3 decimal places. -/
def round3 (q : ℚ) : ℚ := (round (q * 1000) : ℚ) / 1000

/-- Python `max(iterable, key=f)` on a nonempty iterable `best :: rest`:
scan left to right, replacing the current best only on a strictly larger
key, so on ties the first-encountered element wins. -/
def pyMaxBy {α : Type} (f : α → ℚ) : α → List α → α
  | best, [] => best
  | best, x :: xs => pyMaxBy f (if f best < f x then x else best) xs

/-- The `analyze_mood` handler with the classifier call abstracted:
`result` is the list of `(label, score)` pairs returned by
`emotion_model(req.text)[0]`; the handler takes
`max(result, key=lambda x: x['score'])` and rounds the score to 3 places.
Python `max` raises on an empty sequence, hence `none` there. -/
def analyze_mood (text : String) : List (String × ℚ) → Option MoodResponse
  | [] => none
  | r :: rs =>
    let top := pyMaxBy (fun p => p.2) r rs
    some { input_text := text, mood := top.1, confidence := round3 top.2 }

/-- `MAX_FILE_SIZE = 10 * 1024 * 1024` from `analyze_audio`. -/
def MAX_FILE_SIZE : Nat := 10 * 1024 * 1024

/-- Outcome of the size-validation read loop of `analyze_audio`: either the
`{"error": "File size too large..."}` payload was returned (recording how
many bytes of `contents` were buffered at that point), or the whole body
was read (`file_size` and the buffered `contents` length). -/
inductive ReadResult where
  | fileTooLarge (buffered : Nat)
  | complete (file_size : Nat) (buffered : Nat)
deriving Repr, DecidableEq

/-- The `while chunk := await file.read(8192)` loop of `analyze_audio`,
with the upload modelled by the sizes of the successive chunks the reads
return (each at most 8192; the list ends at end-of-file, and a returned
empty chunk is falsy and ends the loop).  Each iteration adds the chunk
length to `file_size`, returns the error payload as soon as
`file_size > MAX_FILE_SIZE`, and otherwise appends the chunk to `contents`
(tracked by its length `buffered`).  The second component counts how many
chunks were read. -/
def readLoop : List Nat → Nat → Nat → ReadResult × Nat
  | [], file_size, buffered => (.complete file_size buffered, 0)
  | c :: rest, file_size, buffered =>
    if c = 0 then (.complete file_size buffered, 1)
    else
      let fs := file_size + c
      if MAX_FILE_SIZE < fs then (.fileTooLarge buffered, 1)
      else
        let r := readLoop rest fs (buffered + c)
        (r.1, r.2 + 1)

/-- The size-validation phase of `analyze_audio` on a fresh request:
`file_size = 0`, `contents = b""`. -/
def analyze_audio_read (chunks : List Nat) : ReadResult × Nat :=
  readLoop chunks 0 0

/-! ## Concrete sample inputs -/

/-- The candidate list of the spec example:
`[{id:1,preview:null}, {id:2,preview:"u2"}, {id:2,preview:"u2"}, {id:3,preview:"u3"}]`. -/
def sampleSongs : List Candidate :=
  [ { id := some 1, title := some "t1", artist := some { name := some "a1" }, preview := none },
    { id := some 2, title := some "t2", artist := some { name := some "a2" }, preview := some "u2" },
    { id := some 2, title := some "t2", artist := some { name := some "a2" }, preview := some "u2" },
    { id := some 3, title := some "t3", artist := some { name := some "a3" }, preview := some "u3" } ]

/-- A valid candidate with id `n`, a title, an artist and a preview. -/
def validCand (n : Nat) : Candidate :=
  { id := some (n : Int), title := some ("t" ++ toString n),
    artist := some { name := some ("a" ++ toString n) },
    preview := some ("u" ++ toString n) }

/-- Ten valid candidates with pairwise-distinct ids and non-null previews. -/
def tenValid : List Candidate :=
  [validCand 1, validCand 2, validCand 3, validCand 4, validCand 5,
   validCand 6, validCand 7, validCand 8, validCand 9, validCand 10]

/-- An upload whose chunked reads are 1281 full 8192-byte chunks (just over
the 10 MiB cap) followed by one more byte. -/
def bigUpload : List Nat := List.replicate 1281 8192 ++ [1]

/-! ## Lemmas about the filter loop -/

theorem accepts_true_iff (song : Candidate) (seen : List (Option Int)) :
    accepts song seen = true ↔ truthy song.preview = true ∧ song.id ∉ seen := by
  simp [accepts, List.contains]

theorem playlistLoop_eq (target : Nat) :
    ∀ (songs : List Candidate) (seen : List (Option Int)) (acc : List TrackInfo),
      playlistLoop target songs seen acc
        = acc ++ (acceptedCands target songs seen acc.length).map mkEntry
  | [], seen, acc => by simp [playlistLoop, acceptedCands]
  | song :: rest, seen, acc => by
    by_cases h : accepts song seen
    · by_cases ht : target ≤ acc.length + 1
      · simp [playlistLoop, acceptedCands, h, ht]
      · have IH := playlistLoop_eq target rest (song.id :: seen) (acc ++ [mkEntry song])
        simp only [playlistLoop, acceptedCands, h, if_true, List.length_append,
          List.length_cons, List.length_nil, Nat.add_zero, Nat.zero_add] at *
        simp only [ht, if_false]
        rw [IH]
        simp [List.append_assoc]
    · have IH := playlistLoop_eq target rest seen acc
      simp [playlistLoop, acceptedCands, h, IH]

theorem acceptedCands_length (target : Nat) :
    ∀ (songs : List Candidate) (seen : List (Option Int)) (k : Nat), k < target →
      (acceptedCands target songs seen k).length + k ≤ target
  | [], _, _, hk => by simp [acceptedCands]; omega
  | song :: rest, seen, k, hk => by
    by_cases h : accepts song seen
    · by_cases ht : target ≤ k + 1
      · simp [acceptedCands, h, ht]; omega
      · have hk1 : k + 1 < target := Nat.lt_of_not_le ht
        have IH := acceptedCands_length target rest (song.id :: seen) (k + 1) hk1
        simp only [acceptedCands, h, if_true, ht, if_false, List.length_cons]
        omega
    · have IH := acceptedCands_length target rest seen k hk
      simpa [acceptedCands, h] using IH

theorem acceptedCands_id_not_seen (target : Nat) :
    ∀ (songs : List Candidate) (seen : List (Option Int)) (k : Nat)
      (c : Candidate), c ∈ acceptedCands target songs seen k → c.id ∉ seen
  | [], _, _, _, hc => by simp [acceptedCands] at hc
  | song :: rest, seen, k, c, hc => by
    by_cases h : accepts song seen
    · have hsong : song.id ∉ seen := ((accepts_true_iff song seen).mp h).2
      by_cases ht : target ≤ k + 1
      · simp [acceptedCands, h, ht] at hc
        subst hc; exact hsong
      · simp only [acceptedCands, h, if_true, ht, if_false, List.mem_cons] at hc
        rcases hc with hc | hc
        · subst hc; exact hsong
        · have := acceptedCands_id_not_seen target rest (song.id :: seen) (k + 1) c hc
          exact fun hmem => this (List.mem_cons_of_mem _ hmem)
    · have hc' : c ∈ acceptedCands target rest seen k := by
        simpa [acceptedCands, h] using hc
      exact acceptedCands_id_not_seen target rest seen k c hc'

theorem acceptedCands_pairwise_ne (target : Nat) :
    ∀ (songs : List Candidate) (seen : List (Option Int)) (k : Nat),
      (acceptedCands target songs seen k).Pairwise (fun a b => a.id ≠ b.id)
  | [], _, _ => by simp [acceptedCands]
  | song :: rest, seen, k => by
    by_cases h : accepts song seen
    · by_cases ht : target ≤ k + 1
      · simp [acceptedCands, h, ht]
      · have IH := acceptedCands_pairwise_ne target rest (song.id :: seen) (k + 1)
        simp only [acceptedCands, h, if_true, ht, if_false]
        refine List.Pairwise.cons (fun b hb => ?_) IH
        have := acceptedCands_id_not_seen target rest (song.id :: seen) (k + 1) b hb
        intro hid
        exact this (by rw [← hid]; exact List.mem_cons_self _ _)
    · simpa [acceptedCands, h] using acceptedCands_pairwise_ne target rest seen k

theorem acceptedCands_sublist (target : Nat) :
    ∀ (songs : List Candidate) (seen : List (Option Int)) (k : Nat),
      (acceptedCands target songs seen k).Sublist songs
  | [], _, _ => by simp [acceptedCands]
  | song :: rest, seen, k => by
    by_cases h : accepts song seen
    · by_cases ht : target ≤ k + 1
      · simp only [acceptedCands, h, if_true, ht]
        exact (List.nil_sublist rest).cons₂ song
      · simp only [acceptedCands, h, if_true, ht, if_false]
        exact (acceptedCands_sublist target rest (song.id :: seen) (k + 1)).cons₂ song
    · simp only [acceptedCands, h, if_false]
      exact (acceptedCands_sublist target rest seen k).cons song

theorem acceptedCands_preview (target : Nat) :
    ∀ (songs : List Candidate) (seen : List (Option Int)) (k : Nat)
      (c : Candidate), c ∈ acceptedCands target songs seen k → truthy c.preview = true
  | [], _, _, _, hc => by simp [acceptedCands] at hc
  | song :: rest, seen, k, c, hc => by
    by_cases h : accepts song seen
    · have hsong : truthy song.preview = true := ((accepts_true_iff song seen).mp h).1
      by_cases ht : target ≤ k + 1
      · simp [acceptedCands, h, ht] at hc
        subst hc; exact hsong
      · simp only [acceptedCands, h, if_true, ht, if_false, List.mem_cons] at hc
        rcases hc with hc | hc
        · subst hc; exact hsong
        · exact acceptedCands_preview target rest (song.id :: seen) (k + 1) c hc
    · have hc' : c ∈ acceptedCands target rest seen k := by
        simpa [acceptedCands, h] using hc
      exact acceptedCands_preview target rest seen k c hc'

theorem consumedCount_le (target : Nat) :
    ∀ (songs : List Candidate) (seen : List (Option Int)) (k : Nat),
      consumedCount target songs seen k ≤ songs.length
  | [], _, _ => by simp [consumedCount]
  | song :: rest, seen, k => by
    by_cases h : accepts song seen
    · by_cases ht : target ≤ k + 1
      · simp [consumedCount, h, ht]
      · have IH := consumedCount_le target rest (song.id :: seen) (k + 1)
        simp only [consumedCount, h, if_true, ht, if_false, List.length_cons]
        omega
    · have IH := consumedCount_le target rest seen k
      simp [consumedCount, h]
      omega

theorem playlistLoop_take_consumed (target : Nat) :
    ∀ (songs : List Candidate) (seen : List (Option Int)) (acc : List TrackInfo),
      playlistLoop target (songs.take (consumedCount target songs seen acc.length)) seen acc
        = playlistLoop target songs seen acc
  | [], seen, acc => by simp [consumedCount]
  | song :: rest, seen, acc => by
    by_cases h : accepts song seen
    · by_cases ht : target ≤ acc.length + 1
      · simp [playlistLoop, consumedCount, h, ht]
      · have IH := playlistLoop_take_consumed target rest (song.id :: seen) (acc ++ [mkEntry song])
        simp only [List.length_append, List.length_cons, List.length_nil, Nat.add_zero,
          Nat.zero_add] at IH
        simp only [consumedCount, h, if_true, ht, if_false, Nat.add_comm 1, List.take_succ_cons,
          playlistLoop]
        simp only [List.length_append, List.length_cons, List.length_nil, Nat.add_zero, ht,
          if_false]
        exact IH
    · have IH := playlistLoop_take_consumed target rest seen acc
      simp only [consumedCount, h, if_false, Nat.add_comm 1, List.take_succ_cons, playlistLoop]
      exact IH

theorem playlistLoop_append_of_reached (target : Nat) :
    ∀ (songs : List Candidate) (seen : List (Option Int)) (acc : List TrackInfo)
      (tail : List Candidate), acc.length < target →
      target ≤ (playlistLoop target songs seen acc).length →
      playlistLoop target (songs ++ tail) seen acc = playlistLoop target songs seen acc
  | [], seen, acc, tail, hlt, hge => by
    simp only [playlistLoop] at hge
    omega
  | song :: rest, seen, acc, tail, hlt, hge => by
    by_cases h : accepts song seen
    · by_cases ht : target ≤ acc.length + 1
      · simp [playlistLoop, h, ht]
      · have hlt1 : (acc ++ [mkEntry song]).length < target := by
          simp only [List.length_append, List.length_cons, List.length_nil, Nat.add_zero]
          omega
        have hge1 : target ≤ (playlistLoop target rest (song.id :: seen) (acc ++ [mkEntry song])).length := by
          simpa [playlistLoop, h, ht] using hge
        have IH := playlistLoop_append_of_reached target rest (song.id :: seen)
          (acc ++ [mkEntry song]) tail hlt1 hge1
        simp only [List.cons_append, playlistLoop, h, if_true, List.length_append,
          List.length_cons, List.length_nil, Nat.add_zero, ht, if_false]
        simpa using IH
    · have hge1 : target ≤ (playlistLoop target rest seen acc).length := by
        simpa [playlistLoop, h] using hge
      have IH := playlistLoop_append_of_reached target rest seen acc tail hlt hge1
      simp only [List.cons_append, playlistLoop, h, if_false]
      exact IH

/-! ## Lemmas about `max(..., key=...)` -/

theorem pyMaxBy_first_max {α : Type} (f : α → ℚ) :
    ∀ (xs : List α) (best : α),
      f best ≤ f (pyMaxBy f best xs) ∧
      (∀ x ∈ xs, f x ≤ f (pyMaxBy f best xs)) ∧
      (pyMaxBy f best xs = best ∨
        ∃ pre post, xs = pre ++ pyMaxBy f best xs :: post ∧
          f best < f (pyMaxBy f best xs) ∧ ∀ y ∈ pre, f y < f (pyMaxBy f best xs))
  | [], best => by simp [pyMaxBy]
  | x :: xs, best => by
    by_cases hx : f best < f x
    · rw [show pyMaxBy f best (x :: xs) = pyMaxBy f x xs by simp [pyMaxBy, hx]]
      obtain ⟨IH1, IH2, IH3⟩ := pyMaxBy_first_max f xs x
      refine ⟨le_of_lt (lt_of_lt_of_le hx IH1), ?_, ?_⟩
      · intro y hy
        rcases List.mem_cons.mp hy with rfl | hy
        · exact IH1
        · exact IH2 y hy
      · rcases IH3 with heq | ⟨pre, post, hsplit, hlt, hpre⟩
        · refine Or.inr ⟨[], xs, by simp [heq], by rw [heq]; exact hx, by simp⟩
        · refine Or.inr ⟨x :: pre, post, by rw [List.cons_append, ← hsplit], lt_trans hx hlt, ?_⟩
          intro y hy
          rcases List.mem_cons.mp hy with rfl | hy
          · exact hlt
          · exact hpre y hy
    · rw [show pyMaxBy f best (x :: xs) = pyMaxBy f best xs by simp [pyMaxBy, hx]]
      obtain ⟨IH1, IH2, IH3⟩ := pyMaxBy_first_max f xs best
      have hxle : f x ≤ f best := le_of_not_lt hx
      refine ⟨IH1, ?_, ?_⟩
      · intro y hy
        rcases List.mem_cons.mp hy with rfl | hy
        · exact le_trans hxle IH1
        · exact IH2 y hy
      · rcases IH3 with heq | ⟨pre, post, hsplit, hlt, hpre⟩
        · exact Or.inl heq
        · refine Or.inr ⟨x :: pre, post, by rw [List.cons_append, ← hsplit], hlt, ?_⟩
          intro y hy
          rcases List.mem_cons.mp hy with rfl | hy
          · exact lt_of_le_of_lt hxle hlt
          · exact hpre y hy

/-! ## Lemmas about the upload read loop -/

theorem readLoop_spec :
    ∀ (chunks : List Nat) (fs0 buf0 : Nat),
      (∀ c ∈ chunks, 0 < c ∧ c ≤ 8192) → fs0 ≤ MAX_FILE_SIZE → buf0 = fs0 →
      (∀ b k, readLoop chunks fs0 buf0 = (.fileTooLarge b, k) →
         1 ≤ k ∧ k ≤ chunks.length ∧
         b = fs0 + (chunks.take (k - 1)).sum ∧ b ≤ MAX_FILE_SIZE ∧
         MAX_FILE_SIZE < fs0 + (chunks.take k).sum ∧
         fs0 + (chunks.take k).sum ≤ MAX_FILE_SIZE + 8192) ∧
      (∀ fs b k, readLoop chunks fs0 buf0 = (.complete fs b, k) →
         fs ≤ MAX_FILE_SIZE ∧ fs = fs0 + chunks.sum ∧ b = fs ∧ k = chunks.length)
  | [], fs0, buf0, _, hle, hbuf => by
    constructor
    · intro b k h
      simp [readLoop] at h
    · intro fs b k h
      simp only [readLoop, Prod.mk.injEq, ReadResult.complete.injEq] at h
      obtain ⟨⟨rfl, rfl⟩, rfl⟩ := h
      exact ⟨hle, by simp, hbuf, rfl⟩
  | c :: rest, fs0, buf0, hpos, hle, hbuf => by
    obtain ⟨hc0, hc8⟩ := hpos c (List.mem_cons_self _ _)
    have hrest : ∀ x ∈ rest, 0 < x ∧ x ≤ 8192 := fun x hx => hpos x (List.mem_cons_of_mem _ hx)
    have hcne : ¬(c = 0) := by omega
    by_cases hover : MAX_FILE_SIZE < fs0 + c
    · constructor
      · intro b k h
        simp only [readLoop, hcne, if_false, hover, if_true, Prod.mk.injEq,
          ReadResult.fileTooLarge.injEq] at h
        obtain ⟨rfl, rfl⟩ := h
        refine ⟨le_refl 1, by simp, ?_, ?_, ?_, ?_⟩
        · simp [hbuf]
        · omega
        · simpa using hover
        · simp only [List.take_succ_cons, List.take_zero, List.sum_cons, List.sum_nil]
          omega
      · intro fs b k h
        simp only [readLoop, hcne, if_false, hover, if_true, Prod.mk.injEq] at h
        exact absurd h.1 (by simp)
    · have hle' : fs0 + c ≤ MAX_FILE_SIZE := le_of_not_lt hover
      have IH := readLoop_spec rest (fs0 + c) (buf0 + c) hrest hle' (by omega)
      rcases hr : readLoop rest (fs0 + c) (buf0 + c) with ⟨res, cnt⟩
      constructor
      · intro b k h
        simp only [readLoop, hcne, if_false, hover, hr, Prod.mk.injEq] at h
        obtain ⟨hres, rfl⟩ := h
        obtain ⟨h1, h2, h3, h4, h5, h6⟩ := IH.1 b cnt (by rw [hr, hres])
        obtain ⟨m, rfl⟩ : ∃ m, cnt = m + 1 := ⟨cnt - 1, by omega⟩
        simp only [List.take_succ_cons, List.sum_cons, List.length_cons, Nat.add_sub_cancel] at *
        exact ⟨by omega, by omega, by omega, h4, by omega, by omega⟩
      · intro fs b k h
        simp only [readLoop, hcne, if_false, hover, hr, Prod.mk.injEq] at h
        obtain ⟨hres, rfl⟩ := h
        obtain ⟨h1, h2, h3, h4⟩ := IH.2 fs b cnt (by rw [hr, hres])
        simp only [List.sum_cons, List.length_cons]
        exact ⟨h1, by omega, h3, by omega⟩

/-! ## Claim theorems -/

/-- C1: for every candidate sequence the playlist built by `get_playlist`
has length at most the target count: unconditionally for the configured
default `TARGET_SONGS = 5`, and for every positive target count. -/
theorem C1_playlist_length_le_target :
    (∀ songs : List Candidate,
      (filtered_playlist TARGET_SONGS songs).length ≤ TARGET_SONGS) ∧
    (∀ (target : Nat) (songs : List Candidate), 1 ≤ target →
      (filtered_playlist target songs).length ≤ target) := by
  have key : ∀ (target : Nat) (songs : List Candidate), 1 ≤ target →
      (filtered_playlist target songs).length ≤ target := by
    intro target songs ht
    have hlen := acceptedCands_length target songs [] 0 ht
    rw [filtered_playlist, playlistLoop_eq]
    simpa using hlen
  exact ⟨fun songs => key TARGET_SONGS songs (by decide), key⟩

/-- C1 witness: the second part applied to the default target 5 and the
sample candidate list. -/
theorem C1_witness : 1 ≤ 5 ∧ (filtered_playlist 5 sampleSongs).length ≤ 5 :=
  ⟨by decide, C1_playlist_length_le_target.2 5 sampleSongs (by decide)⟩

/-- C2: for every candidate sequence and target, the playlist is the image
under `mkEntry` of a subsequence of the input whose candidate ids are
pairwise distinct: no two entries are built from candidates sharing an
`id`. -/
theorem C2_distinct_ids (target : Nat) (songs : List Candidate) :
    ∃ cs : List Candidate, cs.Sublist songs ∧
      cs.Pairwise (fun a b => a.id ≠ b.id) ∧
      filtered_playlist target songs = cs.map mkEntry := by
  refine ⟨acceptedCands target songs [] 0, acceptedCands_sublist target songs [] 0,
    acceptedCands_pairwise_ne target songs [] 0, ?_⟩
  rw [filtered_playlist, playlistLoop_eq]
  simp

/-- C3: every entry of the returned playlist has a non-null, non-empty
`preview_url`. -/
theorem C3_preview_nonempty (target : Nat) (songs : List Candidate) (e : TrackInfo)
    (he : e ∈ filtered_playlist target songs) :
    ∃ s, e.preview_url = some s ∧ s ≠ "" := by
  rw [filtered_playlist, playlistLoop_eq] at he
  simp only [List.nil_append, List.length_nil, List.mem_map] at he
  obtain ⟨c, hc, rfl⟩ := he
  have htr := acceptedCands_preview target songs [] 0 c hc
  rcases hp : c.preview with _ | s
  · rw [hp] at htr
    simp [truthy] at htr
  · rw [hp] at htr
    simp only [truthy, decide_eq_true_eq] at htr
    exact ⟨s, by simp [mkEntry, hp], htr⟩

/-- C3 witness: an entry of the playlist built from the sample candidates
has the non-empty preview URL `u2`. -/
theorem C3_witness :
    (TrackInfo.mk (some "t2") (some "a2") (some "u2")) ∈ filtered_playlist 5 sampleSongs ∧
    ∃ s, (TrackInfo.mk (some "t2") (some "a2") (some "u2")).preview_url = some s ∧ s ≠ "" :=
  ⟨by decide, C3_preview_nonempty 5 sampleSongs _ (by decide)⟩

/-- C4: for every positive target the loop only consumes a front segment of
the input — the output equals the filter run on `songs.take n` for some
`n ≤ songs.length`, and once the target is met the candidates after that
segment are never inspected (any continuation yields the same output); and
on ten valid unique-id candidates with target 2 the output is exactly the
entries of the first two, in order. -/
theorem C4_short_circuit :
    (∀ (target : Nat) (songs : List Candidate), 1 ≤ target →
      ∃ n, n ≤ songs.length ∧
        filtered_playlist target songs = filtered_playlist target (songs.take n) ∧
        (target ≤ (filtered_playlist target songs).length →
          ∀ tail, filtered_playlist target (songs.take n ++ tail)
            = filtered_playlist target songs)) ∧
    filtered_playlist 2 tenValid = [mkEntry (validCand 1), mkEntry (validCand 2)] := by
  constructor
  · intro target songs ht
    refine ⟨consumedCount target songs [] 0, consumedCount_le target songs [] 0, ?_, ?_⟩
    · have h1 := playlistLoop_take_consumed target songs [] []
      simp only [List.length_nil] at h1
      rw [filtered_playlist, filtered_playlist, h1]
    · intro hreach tail
      have h1 := playlistLoop_take_consumed target songs [] []
      simp only [List.length_nil] at h1
      have h2 := playlistLoop_append_of_reached target
        (songs.take (consumedCount target songs [] 0)) [] [] tail
        (by simpa using ht) (by rw [h1]; exact hreach)
      rw [filtered_playlist, filtered_playlist, h2, h1]
  · decide

/-- C4 witness: the first part applied at target 2 and the ten valid
candidates. -/
theorem C4_witness :
    1 ≤ 2 ∧ ∃ n, n ≤ tenValid.length ∧
      filtered_playlist 2 tenValid = filtered_playlist 2 (tenValid.take n) ∧
      (2 ≤ (filtered_playlist 2 tenValid).length →
        ∀ tail, filtered_playlist 2 (tenValid.take n ++ tail) = filtered_playlist 2 tenValid) :=
  ⟨by decide, C4_short_circuit.1 2 tenValid (by decide)⟩

/-- C5 counterexample: the claim says an empty `q` falls back to the
default term, but `request.args.get('q', DEFAULT_QUERY)` returns a present
value as-is, so a present-but-empty `q` yields the empty search term, not
`DEFAULT_QUERY`. -/
theorem C5_counterexample : requestQuery (some "") ≠ DEFAULT_QUERY := by decide

/-- C5 (amended): the search term is the fixed default term `lofi` exactly
when `q` is absent; any supplied value of `q` — including the empty
string — is used as-is. -/
theorem C5_query_defaulting :
    requestQuery none = DEFAULT_QUERY ∧ (∀ s : String, requestQuery (some s) = s) ∧
    requestQuery (some "") = "" :=
  ⟨rfl, fun _ => rfl, rfl⟩

/-- C6: on a successful upstream call with a well-formed body, the handler
returns the 404 `No Songs Found` `{error, message}` body exactly when the
filter accepted nothing, and otherwise returns 200 with exactly the
accepted list. -/
theorem C6_no_qualifying_results (qParam : Option String) (songs : List Candidate) :
    ((∃ m, get_playlist qParam (.success (.withData songs))
        = .errorBody 404 "No Songs Found" m) ↔
      filtered_playlist TARGET_SONGS songs = []) ∧
    (filtered_playlist TARGET_SONGS songs ≠ [] →
      get_playlist qParam (.success (.withData songs))
        = .okBody 200 (filtered_playlist TARGET_SONGS songs)) := by
  constructor
  · constructor
    · rintro ⟨m, hm⟩
      by_contra hne
      simp [get_playlist, hne] at hm
    · intro hempty
      refine ⟨"Could not find any songs with a preview URL for query \x27"
        ++ requestQuery qParam ++ "\x27. Try a different search term.", ?_⟩
      simp [get_playlist, hempty]
  · intro hne
    simp [get_playlist, hne]

/-- C6 witness: the theorem at the sample candidate list, where the filter
accepts two entries, and at the empty candidate list, where it accepts
none. -/
theorem C6_witness :
    (filtered_playlist TARGET_SONGS sampleSongs ≠ [] →
      get_playlist none (.success (.withData sampleSongs))
        = .okBody 200 (filtered_playlist TARGET_SONGS sampleSongs)) ∧
    ((∃ m, get_playlist none (.success (.withData []))
        = .errorBody 404 "No Songs Found" m) ↔
      filtered_playlist TARGET_SONGS [] = []) :=
  ⟨(C6_no_qualifying_results none sampleSongs).2,
   (C6_no_qualifying_results none []).1⟩

/-- C7: for every nonempty classifier result the mood handler returns the
label of a pair that attains the maximum score, with all
earlier-encountered pairs scoring strictly less (ties break to the
first-encountered pair), and its score rounded to 3 places as the
confidence; on scores `joy 0.4, sadness 0.6` it selects `sadness` with
confidence `0.6`. -/
theorem C7_top_score_selection :
    (∀ (text : String) (r : String × ℚ) (rs : List (String × ℚ)),
      ∃ (top : String × ℚ) (pre post : List (String × ℚ)),
        analyze_mood text (r :: rs)
          = some { input_text := text, mood := top.1, confidence := round3 top.2 } ∧
        r :: rs = pre ++ top :: post ∧
        (∀ y ∈ r :: rs, y.2 ≤ top.2) ∧
        (∀ y ∈ pre, y.2 < top.2)) ∧
    analyze_mood "I feel" [("joy", 2/5), ("sadness", 3/5)]
      = some { input_text := "I feel", mood := "sadness", confidence := 3/5 } := by
  constructor
  · intro text r rs
    obtain ⟨H1, H2, H3⟩ := pyMaxBy_first_max (fun p : String × ℚ => p.2) rs r
    refine ⟨pyMaxBy (fun p : String × ℚ => p.2) r rs, ?_⟩
    rcases H3 with heq | ⟨pre, post, hsplit, hlt, hpre⟩
    · refine ⟨[], rs, rfl, by simp [heq], ?_, by simp⟩
      intro y hy
      rcases List.mem_cons.mp hy with rfl | hy
      · rw [heq]
      · exact H2 y hy
    · refine ⟨r :: pre, post, rfl, by rw [List.cons_append, ← hsplit], ?_, ?_⟩
      · intro y hy
        rcases List.mem_cons.mp hy with rfl | hy
        · exact H1
        · exact H2 y hy
      · intro y hy
        rcases List.mem_cons.mp hy with rfl | hy
        · exact hlt
        · exact hpre y hy
  · have hlt : ((2 : ℚ)/5) < 3/5 := by norm_num
    simp only [analyze_mood, pyMaxBy, hlt, if_true]
    norm_num [round3, round_eq]

/-- C7 witness: the first part applied to the two-label example. -/
theorem C7_witness :
    ∃ (top : String × ℚ) (pre post : List (String × ℚ)),
      analyze_mood "I feel" [("joy", 2/5), ("sadness", 3/5)]
        = some { input_text := "I feel", mood := top.1, confidence := round3 top.2 } ∧
      [("joy", (2:ℚ)/5), ("sadness", 3/5)] = pre ++ top :: post ∧
      (∀ y ∈ [("joy", (2:ℚ)/5), ("sadness", 3/5)], y.2 ≤ top.2) ∧
      (∀ y ∈ pre, y.2 < top.2) :=
  C7_top_score_selection.1 "I feel" ("joy", 2/5) [("sadness", 3/5)]

/-- C8: over any upload whose chunked reads each return at most 8192 bytes,
the size-validation loop of `analyze_audio` returns the error outcome at
the first read that pushes the cumulative size over `MAX_FILE_SIZE`,
reading no chunk beyond it, with at most the cap buffered and at most the
cap plus one chunk counted; and it completes only when the whole body is
within the cap. -/
theorem C8_size_cap (chunks : List Nat) (h : ∀ c ∈ chunks, 0 < c ∧ c ≤ 8192) :
    (∀ b k, analyze_audio_read chunks = (.fileTooLarge b, k) →
       1 ≤ k ∧ k ≤ chunks.length ∧ b = (chunks.take (k - 1)).sum ∧
       b ≤ MAX_FILE_SIZE ∧ MAX_FILE_SIZE < (chunks.take k).sum ∧
       (chunks.take k).sum ≤ MAX_FILE_SIZE + 8192) ∧
    (∀ fs b k, analyze_audio_read chunks = (.complete fs b, k) →
       fs ≤ MAX_FILE_SIZE ∧ fs = chunks.sum ∧ b = fs ∧ k = chunks.length) := by
  have := readLoop_spec chunks 0 0 h (Nat.zero_le _) rfl
  simpa [analyze_audio_read] using this

/-- C8 witness: the theorem applied to an upload of 1281 full 8 KiB chunks
followed by one extra byte. -/
theorem C8_witness :
    (∀ c ∈ bigUpload, 0 < c ∧ c ≤ 8192) ∧
    ((∀ b k, analyze_audio_read bigUpload = (.fileTooLarge b, k) →
       1 ≤ k ∧ k ≤ bigUpload.length ∧ b = (bigUpload.take (k - 1)).sum ∧
       b ≤ MAX_FILE_SIZE ∧ MAX_FILE_SIZE < (bigUpload.take k).sum ∧
       (bigUpload.take k).sum ≤ MAX_FILE_SIZE + 8192) ∧
    (∀ fs b k, analyze_audio_read bigUpload = (.complete fs b, k) →
       fs ≤ MAX_FILE_SIZE ∧ fs = bigUpload.sum ∧ b = fs ∧ k = bigUpload.length)) := by
  have hchunks : ∀ c ∈ bigUpload, 0 < c ∧ c ≤ 8192 := by
    intro c hc
    simp only [bigUpload, List.mem_append, List.mem_replicate, List.mem_singleton] at hc
    rcases hc with ⟨-, rfl⟩ | rfl
    · omega
    · omega
  exact ⟨hchunks, C8_size_cap bigUpload hchunks⟩

/-- C9: the acceptance test of the filter depends only on a candidate's
`preview` and `id`, never on `title` or `artist.name`; a candidate with a
null title and null artist but a non-empty preview and unseen id is
accepted, yielding an entry with null `title` and `artist`. -/
theorem C9_title_artist_not_inspected :
    (∀ (i : Option Int) (t t' : Option String) (a a' : Option Artist)
       (p : Option String) (seen : List (Option Int)),
       accepts { id := i, title := t, artist := a, preview := p } seen
         = accepts { id := i, title := t', artist := a', preview := p } seen) ∧
    filtered_playlist 5 [{ id := some 1, title := none, artist := none, preview := some "u" }]
      = [{ title := none, artist := none, preview_url := some "u" }] :=
  ⟨fun _ _ _ _ _ _ _ => rfl, by decide⟩

/-- C10: all id-less candidates share the dedup key `None`: once `None` is
in the seen-set, every id-less candidate is rejected regardless of its
other fields, so of two id-less candidates with different titles, artists
and previews only the first contributes an entry. -/
theorem C10_idless_dedup :
    (∀ (seen : List (Option Int)) (t : Option String) (a : Option Artist)
       (p : Option String), none ∈ seen →
       accepts { id := none, title := t, artist := a, preview := p } seen = false) ∧
    filtered_playlist 5
      [{ id := none, title := some "A", artist := some { name := some "X" }, preview := some "u1" },
       { id := none, title := some "B", artist := some { name := some "Y" }, preview := some "u2" }]
      = [{ title := some "A", artist := some "X", preview_url := some "u1" }] := by
  constructor
  · intro seen t a p hmem
    have h1 : seen.contains (none : Option Int) = true := by
      simpa [List.contains] using hmem
    simp only [accepts]
    rw [h1]
    simp
  · decide

/-- C10 witness: the first part applied to a seen-set already holding
`None`. -/
theorem C10_witness :
    ((none : Option Int) ∈ [(none : Option Int)]) ∧
    accepts { id := none, title := some "T", artist := none, preview := some "u" }
      [(none : Option Int)] = false :=
  ⟨by decide, C10_idless_dedup.1 [none] (some "T") none (some "u") (by decide)⟩

end VoTune
